import Mathlib

/-!
Verification of the Kokoros TTS core (src/kokoros/src/tts/koko.rs and
src/kokoros/src/tts/tokenize.rs) via a shallow embedding.

Modelling conventions:
- Rust `String`/`&str` values are embedded as `List Char` (`Str`), so that
  every definition is executable by the kernel.
- The external phonemizer (`espeak_rs::text_to_phonemes`, called with a
  language and a text and returning a `Result` of phoneme fragments that the
  code joins with `""`) is a parameter `Phonemize`: language and text to
  `Except` error or the joined phoneme string.
- The vocabulary (`crate::tts::vocab::VOCAB`, a `HashMap<char, usize>`) is a
  parameter `Vocab : Char → Option Nat`; `tokenize` casts ids to `i64`
  (embedded as `Int`), exactly as `tokenize.rs` does.
- The ONNX inference engine is a parameter `Infer` over the same shapes the
  code passes: a batch of token rows (`Vec<Vec<i64>>`), the style rows
  (`Vec<Vec<f32>>`), and a speed.
- `f32` arithmetic is idealized as exact rational arithmetic (`ℚ`); the spec
  itself states its blend properties only up to floating-point tolerance.
- A Rust panic (out-of-bounds `Vec` index) is `none` in an `Option`-typed
  result; a returned `Err` is `Except.error`.
- `eprintln!` diagnostics on the chunk-failure path are modelled as a log of
  lines threaded through synthesis (tracing output and the progress prints of
  `mix_styles` are elided; no claim concerns them).
-/

namespace Kokoros

/-- Rust strings embedded as lists of characters. -/
abbrev Str := List Char

/-- Shorthand to write embedded strings from Lean string literals. -/
def str (s : String) : Str := s.toList

/-- The vocabulary map `VOCAB : HashMap<char, usize>` (its defining module
`vocab.rs` is external to the sources at hand), as a lookup function. -/
abbrev Vocab := Char → Option Nat

/-- `tokenize` from tokenize.rs lines 14-20:
`phonemes.chars().filter_map(|c| VOCAB.get(&c)).map(|&idx| idx as i64).collect()`. -/
def tokenize (vocab : Vocab) (phonemes : Str) : List Int :=
  (phonemes.filterMap vocab).map (fun idx => Int.ofNat idx)

/-- The external phonemizer: language, then text, to an error or the phoneme
fragments already joined with `""` (the join happens at every call site). -/
abbrev Phonemize := Str → Str → Except Str Str

/-- Rust `str::split(pred)`: splits at every matching character, keeping empty
pieces (splitting the empty string yields one empty piece). -/
def splitOnPred (p : Char → Bool) : Str → List Str
  | [] => [[]]
  | c :: cs =>
    if p c then [] :: splitOnPred p cs
    else
      match splitOnPred p cs with
      | [] => [[c]]
      | x :: xs => (c :: x) :: xs

/-- Rust `str::trim`: drop whitespace from both ends. -/
def trimChars (s : Str) : Str :=
  ((s.dropWhile Char.isWhitespace).reverse.dropWhile Char.isWhitespace).reverse

/-- Rust `str::split_whitespace`: the non-empty maximal runs of
non-whitespace characters. -/
def splitWhitespace (s : Str) : List Str :=
  (splitOnPred Char.isWhitespace s).filter (fun w => !w.isEmpty)

/-- `text_to_phonemes(..).unwrap_or_default().join("")`: a phonemizer error
becomes the empty phoneme string (koko.rs lines 199-204, 219-224, 243-248). -/
def phOrEmpty (ph : Phonemize) (lang s : Str) : Str :=
  match ph lang s with
  | Except.ok p => p
  | Except.error _ => []

/-- The token measurement the chunker repeats three times (koko.rs lines
199-205, 219-225, 243-249): phonemize with language `"en"`, falling back to
empty on error, then count tokens. -/
def measureTokens (ph : Phonemize) (vocab : Vocab) (s : Str) : Nat :=
  (tokenize vocab (phOrEmpty ph (str "en") s)).length

/-- The inner word loop of `split_text_into_chunks` (koko.rs lines 209-239),
entered when a single sentence exceeds the budget. State: chunks so far and
the running `word_chunk`. -/
def wordLoop (ph : Phonemize) (vocab : Vocab) (maxTokens : Nat) :
    List Str → List Str → Str → List Str × Str
  | [], chunks, wordChunk => (chunks, wordChunk)
  | w :: ws, chunks, wordChunk =>
    let testChunk := if wordChunk.isEmpty then w else wordChunk ++ ' ' :: w
    if measureTokens ph vocab testChunk > maxTokens then
      wordLoop ph vocab maxTokens ws
        (if wordChunk.isEmpty then chunks else chunks ++ [wordChunk]) w
    else
      wordLoop ph vocab maxTokens ws chunks testChunk

/-- The sentence loop of `split_text_into_chunks` (koko.rs lines 194-261).
State: chunks so far and the sentence accumulator `current_chunk`. -/
def sentenceLoop (ph : Phonemize) (vocab : Vocab) (maxTokens : Nat) :
    List Str → List Str → Str → List Str × Str
  | [], chunks, current => (chunks, current)
  | s :: ss, chunks, current =>
    let sentence := trimChars s ++ ['.']
    let tokenCount := measureTokens ph vocab sentence
    if tokenCount > maxTokens then
      let words := splitWhitespace sentence
      let res := wordLoop ph vocab maxTokens words chunks []
      let chunks2 := if res.2.isEmpty then res.1 else res.1 ++ [res.2]
      sentenceLoop ph vocab maxTokens ss chunks2 current
    else if !current.isEmpty then
      let testText := current ++ ' ' :: sentence
      if measureTokens ph vocab testText > maxTokens then
        sentenceLoop ph vocab maxTokens ss (chunks ++ [current]) sentence
      else
        sentenceLoop ph vocab maxTokens ss chunks testText
    else
      sentenceLoop ph vocab maxTokens ss chunks sentence

/-- `split_text_into_chunks` (koko.rs lines 183-269): split on sentence
terminators, drop fragments that trim to empty, run the sentence loop, flush
any non-empty trailing accumulator. -/
def split_text_into_chunks (ph : Phonemize) (vocab : Vocab) (text : Str)
    (maxTokens : Nat) : List Str :=
  let sentences := (splitOnPred
      (fun c => c = '.' || c = '?' || c = '!' || c = ';') text).filter
    (fun s => !(trimChars s).isEmpty)
  let res := sentenceLoop ph vocab maxTokens sentences [] []
  if res.2.isEmpty then res.1 else res.1 ++ [res.2]

/-- One style vector: the `[f32; 256]` inner array of a voice entry, embedded
as a total function on its index type (a fixed-size Rust array cannot be
indexed out of bounds). The singleton wrapper `[[f32; 256]; 1]` and its
type-safe `[0]` access are collapsed away. -/
abbrev StyleRow := Fin 256 → ℚ

/-- One voice's table: `Vec<[[f32; 256]; 1]>` (length 511 as built by
`load_voices`, koko.rs line 653). -/
abbrev VoiceTensor := List StyleRow

/-- The loaded style map `HashMap<String, Vec<[[f32;256];1]>>` as a lookup
function. -/
abbrev StyleTable := Str → Option VoiceTensor

/-- Rust `str::split_once(c)`: split at the first occurrence of `c`, `none`
when `c` does not occur. -/
def splitOnceChar (c : Char) : Str → Option (Str × Str)
  | [] => none
  | x :: xs =>
    if x = c then some ([], xs)
    else (splitOnceChar c xs).map (fun p => (x :: p.1, p.2))

/-- Decimal value of a digit string. -/
def digitsVal (s : Str) : ℚ :=
  s.foldl (fun a c => a * 10 + (c.toNat - '0'.toNat : ℕ)) 0

/-- `portion.parse::<f32>()` (koko.rs line 623), modelled for unsigned decimal
literals — the only shape a style spec's weight takes — with `f32` idealized
as `ℚ`: digits, optionally split by one point, at least one digit present. -/
def parsePortion (s : Str) : Option ℚ :=
  match splitOnceChar '.' s with
  | none => if !s.isEmpty && s.all Char.isDigit then some (digitsVal s) else none
  | some (intPart, fracPart) =>
    if (!intPart.isEmpty || !fracPart.isEmpty)
        && intPart.all Char.isDigit && fracPart.all Char.isDigit then
      some (digitsVal intPart + digitsVal fracPart / (10 : ℚ) ^ fracPart.length)
    else none

/-- The component-parsing loop of `mix_styles` (koko.rs lines 621-628): for
each `+`-separated piece, `split_once('.')` then parse the portion; pieces
that fail either step are skipped; surviving names are paired with
`portion * 0.1`. -/
def parseComponents : List Str → List (Str × ℚ)
  | [] => []
  | s :: rest =>
    match splitOnceChar '.' s with
    | some (name, portion) =>
      match parsePortion portion with
      | some q => (name, q * (1 / 10)) :: parseComponents rest
      | none => parseComponents rest
    | none => parseComponents rest

/-- The accumulation loop of `mix_styles` (koko.rs lines 633-641): for each
resolved component, `style[tokens_len][0]` (a panic — `none` — when
`tokens_len` is out of bounds) is scaled and added element-wise; unresolved
names are skipped. -/
def blendLoop (table : StyleTable) (tokensLen : Nat) :
    List (Str × ℚ) → StyleRow → Option StyleRow
  | [], b => some b
  | (name, portion) :: rest, b =>
    match table name with
    | some style =>
      match style.get? tokensLen with
      | some row => blendLoop table tokensLen rest (fun j => b j + row j * portion)
      | none => none
    | none => blendLoop table tokensLen rest b

/-- `mix_styles` (koko.rs lines 602-644). The outer `Option` is `none` exactly
when the Rust code panics on an out-of-bounds `style[tokens_len]`; the inner
`Except` is its `Result`. -/
def mix_styles (table : StyleTable) (styleName : Str) (tokensLen : Nat) :
    Option (Except Str (List StyleRow)) :=
  if !(styleName.contains '+') then
    match table styleName with
    | some style => (style.get? tokensLen).map (fun entry => Except.ok [entry])
    | none => some (Except.error (str "can not found from styles_map: " ++ styleName))
  else
    let comps := splitOnPred (fun c => c = '+') styleName
    let parsed := parseComponents comps
    (blendLoop table tokensLen parsed (fun _ => 0)).map (fun b => Except.ok [b])

/-- The inference collaborator `OrtKoko::infer` (model.rs lines 57-123):
batched token rows, style rows, speed, to an error or the PCM samples. -/
abbrev Infer := List (List Int) → List StyleRow → ℚ → Except Str (List ℚ)

/-- `for _ in 0..initial_silence.unwrap_or(0) { tokens.insert(0, 30); }`
(koko.rs lines 421-423): insert the silence token id 30 at the front, `k`
times. -/
def prependSilence : Nat → List Int → List Int
  | 0, tokens => tokens
  | k + 1, tokens => prependSilence k (30 :: tokens)

/-- Outcome of the body shared by both synthesis loops (koko.rs lines
401-457 and 483-540): phonemize the chunk (propagating errors), tokenize,
prepend silence, resolve the style at the pre-padding token count, wrap the
tokens with the sentinel id 0, invoke inference. -/
inductive ChunkOutcome where
  | phonemeError (e : Str)
  | stylePanic
  | styleError (e : Str)
  | inferError (e : Str)
  | audio (pcm : List ℚ)
deriving DecidableEq

/-- The per-chunk pipeline body (koko.rs lines 401-444, identically 483-526):
`lan` is the request language, `sn` the style spec, `k` the initial-silence
count. -/
def processChunk (ph : Phonemize) (vocab : Vocab) (table : StyleTable)
    (ifr : Infer) (lan sn : Str) (speed : ℚ) (k : Nat) (chunk : Str) :
    ChunkOutcome :=
  match ph lan chunk with
  | Except.error e => ChunkOutcome.phonemeError e
  | Except.ok phonemes =>
    let tokens := prependSilence k (tokenize vocab phonemes)
    match mix_styles table sn tokens.length with
    | none => ChunkOutcome.stylePanic
    | some (Except.error e) => ChunkOutcome.styleError e
    | some (Except.ok styles) =>
      let paddedTokens := 0 :: (tokens ++ [0])
      match ifr [paddedTokens] styles speed with
      | Except.ok a => ChunkOutcome.audio a
      | Except.error e => ChunkOutcome.inferError e

/-- The two `eprintln!` diagnostics of the inference-failure arm (koko.rs
lines 450-451 and 533-534). -/
def chunkFailLog (e chunk : Str) : List Str :=
  [str "Error processing chunk: " ++ e, str "Chunk text was: " ++ chunk]

/-- The message of the error returned on inference failure (koko.rs lines
452-455): built from the inference error only. -/
def chunkFailMsg (e : Str) : Str :=
  str "Chunk processing failed: " ++ e

/-- The batch loop of `tts_raw_audio` (koko.rs lines 400-458): state is the
cumulative `final_audio` and the stderr log; result `none` models a panic,
`some (log, r)` the returned `Result` together with the diagnostics printed. -/
def synthChunksB (ph : Phonemize) (vocab : Vocab) (table : StyleTable)
    (ifr : Infer) (lan sn : Str) (speed : ℚ) (k : Nat) :
    List Str → List ℚ → List Str → Option (List Str × Except Str (List ℚ))
  | [], finalAudio, log => some (log, Except.ok finalAudio)
  | chunk :: rest, finalAudio, log =>
    match processChunk ph vocab table ifr lan sn speed k chunk with
    | ChunkOutcome.phonemeError e => some (log, Except.error e)
    | ChunkOutcome.stylePanic => none
    | ChunkOutcome.styleError e => some (log, Except.error e)
    | ChunkOutcome.audio a =>
      synthChunksB ph vocab table ifr lan sn speed k rest (finalAudio ++ a) log
    | ChunkOutcome.inferError e =>
      some (log ++ chunkFailLog e chunk, Except.error (chunkFailMsg e))

/-- `tts_raw_audio` (koko.rs lines 385-461): chunk with the hardcoded budget
500, then run the batch loop with an empty accumulator. -/
def tts_raw_audio (ph : Phonemize) (vocab : Vocab) (table : StyleTable)
    (ifr : Infer) (txt lan sn : Str) (speed : ℚ)
    (initialSilence : Option Nat) : Option (List Str × Except Str (List ℚ)) :=
  synthChunksB ph vocab table ifr lan sn speed (initialSilence.getD 0)
    (split_text_into_chunks ph vocab txt 500) [] []

/-- The streaming loop of `tts_raw_audio_streaming` (koko.rs lines 482-541):
the `FnMut` callback is embedded as a state-passing function `cb`; a chunk's
PCM is handed to `cb` immediately (`chunk_callback(chunk_audio)?`), whose
error return aborts as the `?` does. -/
def synthChunksS {σ : Type} (ph : Phonemize) (vocab : Vocab)
    (table : StyleTable) (ifr : Infer) (lan sn : Str) (speed : ℚ) (k : Nat)
    (cb : σ → List ℚ → Except Str σ) :
    List Str → σ → List Str → Option (List Str × Except Str σ)
  | [], s, log => some (log, Except.ok s)
  | chunk :: rest, s, log =>
    match processChunk ph vocab table ifr lan sn speed k chunk with
    | ChunkOutcome.phonemeError e => some (log, Except.error e)
    | ChunkOutcome.stylePanic => none
    | ChunkOutcome.styleError e => some (log, Except.error e)
    | ChunkOutcome.audio a =>
      match cb s a with
      | Except.ok s2 => synthChunksS ph vocab table ifr lan sn speed k cb rest s2 log
      | Except.error e => some (log, Except.error e)
    | ChunkOutcome.inferError e =>
      some (log ++ chunkFailLog e chunk, Except.error (chunkFailMsg e))

/-- `tts_raw_audio_streaming` (koko.rs lines 464-544): same chunking and
budget as the batch path, callback state `s0` standing for the `FnMut`
closure's captured environment. -/
def tts_raw_audio_streaming {σ : Type} (ph : Phonemize) (vocab : Vocab)
    (table : StyleTable) (ifr : Infer) (txt lan sn : Str) (speed : ℚ)
    (initialSilence : Option Nat) (cb : σ → List ℚ → Except Str σ) (s0 : σ) :
    Option (List Str × Except Str σ) :=
  synthChunksS ph vocab table ifr lan sn speed (initialSilence.getD 0) cb
    (split_text_into_chunks ph vocab txt 500) s0 []

/-- Rust `str::contains(pat)` restricted to a string pattern, used to state
what the returned error message does (not) carry: does `pat` occur as a
contiguous slice of `l`? `leadsWith pat l` checks that `pat` starts `l`. -/
def leadsWith : Str → Str → Bool
  | [], _ => true
  | _ :: _, [] => false
  | p :: ps, c :: cs => p = c && leadsWith ps cs

/-- See `leadsWith`. -/
def containsSlice (pat : Str) : Str → Bool
  | [] => pat.isEmpty
  | c :: t => leadsWith pat (c :: t) || containsSlice pat t

section Fixtures

/-- A concrete phonemizer for witnesses: phonemization is the identity and
never fails (each sentence's phoneme token count then trivially fits the
budgets used below). -/
def ph0 : Phonemize := fun _lang s => Except.ok s

/-- A concrete phonemizer that always fails, for the error-path claims. -/
def phBad : Phonemize := fun _lang _s => Except.error (str "espeak failure")

/-- A concrete vocabulary for witnesses: letters, space, period and bang map
to their code points, everything else is absent. -/
def vocab0 : Vocab := fun c =>
  if c.isAlpha || c = ' ' || c = '.' || c = '!' then some c.toNat else none

/-- A concrete 511-entry voice table whose rows are constant 1. -/
def tensorA : VoiceTensor := List.replicate 511 (fun _ => (1 : ℚ))

/-- A concrete 511-entry voice table whose rows are constant 2. -/
def tensorB : VoiceTensor := List.replicate 511 (fun _ => (2 : ℚ))

/-- A concrete style store holding exactly the voices `a` and `b`. -/
def table0 : StyleTable := fun s =>
  if s = str "a" then some tensorA
  else if s = str "b" then some tensorB
  else none

/-- A concrete inference engine that always succeeds with one sample. -/
def infer0 : Infer := fun _tokens _styles _speed => Except.ok [1]

/-- A concrete inference engine that always fails. -/
def inferBad : Infer := fun _tokens _styles _speed => Except.error (str "boom")

end Fixtures

/-- C10: `tokenize` is total: the empty string gives the empty sequence, an
unmapped character is silently dropped (no error, no placeholder), a mapped
character contributes its id in order, and the output is never longer than
the input. -/
theorem c10_tokenize_total (vocab : Vocab) :
    tokenize vocab [] = [] ∧
    (∀ c cs, vocab c = none → tokenize vocab (c :: cs) = tokenize vocab cs) ∧
    (∀ c cs t, vocab c = some t →
      tokenize vocab (c :: cs) = Int.ofNat t :: tokenize vocab cs) ∧
    (∀ l, (tokenize vocab l).length ≤ l.length) := by
  refine ⟨rfl, ?_, ?_, ?_⟩
  · intro c cs h
    simp [tokenize, List.filterMap_cons, h]
  · intro c cs t h
    simp [tokenize, List.filterMap_cons, h]
  · intro l
    rw [tokenize, List.length_map]
    exact List.length_filterMap_le vocab l

/-- Witness for C10 at the concrete vocabulary `vocab0`: `#` is unmapped and
dropped, `a` is mapped to 97 and kept in order. -/
theorem c10_tokenize_total_witness :
    vocab0 '#' = none ∧
    tokenize vocab0 ('#' :: str "ab") = tokenize vocab0 (str "ab") ∧
    vocab0 'a' = some 97 ∧
    tokenize vocab0 ('a' :: str "b") = Int.ofNat 97 :: tokenize vocab0 (str "b") :=
  ⟨by decide, (c10_tokenize_total vocab0).2.1 '#' (str "ab") (by decide),
   by decide, (c10_tokenize_total vocab0).2.2.1 'a' (str "b") 97 (by decide)⟩

set_option maxRecDepth 4000 in
/-- C2 counterexample: the voice table for `a` has exactly 511 entries, yet
the single-voice lookup at pre-padding token count 511 is the raw index 511 —
an out-of-bounds panic (`none`) — not the clamped lookup at index
`min 511 510 = 510` the claim asserts, so the lookup is not defined for
every `n`. -/
theorem c2_counterexample :
    tensorA.length = 511 ∧ table0 (str "a") = some tensorA ∧
    mix_styles table0 (str "a") 511 = none :=
  ⟨by simp only [tensorA, List.length_replicate], rfl, rfl⟩

/-- C2 amended: for a single-voice spec present in the table, `mix_styles`
looks up the style row at the raw pre-padding token count `n`: the lookup
succeeds with entry `n` when `n` is within the table and panics (Rust
out-of-bounds index) when `n` reaches the table length, with no clamping. -/
theorem c2_raw_style_index (table : StyleTable) (name : Str)
    (tbl : VoiceTensor) (n : Nat) (hplus : '+' ∉ name)
    (htbl : table name = some tbl) :
    (∀ hn : n < tbl.length,
        mix_styles table name n = some (Except.ok [tbl.get ⟨n, hn⟩])) ∧
    (tbl.length ≤ n → mix_styles table name n = none) := by
  constructor
  · intro hn
    simp [mix_styles, hplus, htbl, List.getElem?_eq_getElem hn]
  · intro hn
    simp [mix_styles, hplus, htbl, List.getElem?_eq_none hn]

/-- Witness for the amended C2 at the concrete table: index 510 is the last
defined lookup and index 511 panics. -/
theorem c2_raw_style_index_witness :
    mix_styles table0 (str "a") 510
        = some (Except.ok
            [tensorA.get ⟨510, by simp only [tensorA, List.length_replicate]; omega⟩]) ∧
    mix_styles table0 (str "a") 511 = none :=
  ⟨(c2_raw_style_index table0 (str "a") tensorA 510 (by decide) rfl).1
      (by simp only [tensorA, List.length_replicate]; omega),
   (c2_raw_style_index table0 (str "a") tensorA 511 (by decide) rfl).2
      (by simp only [tensorA, List.length_replicate]; omega)⟩

section ParsingLemmas

/-- A piece list produced by `splitOnPred` on a string without any matching
character is the whole string. -/
lemma splitOnPred_no_match (p : Char → Bool) :
    ∀ l : Str, (∀ c ∈ l, p c = false) → splitOnPred p l = [l] := by
  intro l
  induction l with
  | nil => intro _; rfl
  | cons c cs ih =>
    intro h
    have hc : p c = false := h c (List.mem_cons_self c cs)
    have hcs := ih (fun d hd => h d (List.mem_cons_of_mem c hd))
    simp only [splitOnPred, hc, Bool.false_eq_true, if_false, hcs]

/-- Prepending a match-free prefix to the input extends the first piece. -/
lemma splitOnPred_append_of_no_match (p : Char → Bool) (x : Str)
    (hx : ∀ c ∈ x, p c = false) (rest h : Str) (t : List Str)
    (hr : splitOnPred p rest = h :: t) :
    splitOnPred p (x ++ rest) = (x ++ h) :: t := by
  induction x with
  | nil => simpa using hr
  | cons c cs ih =>
    have hc : p c = false := hx c (List.mem_cons_self c cs)
    have hcs := ih (fun d hd => hx d (List.mem_cons_of_mem c hd))
    simp only [List.cons_append, splitOnPred, hc, Bool.false_eq_true, if_false,
      List.append_eq, hcs]

/-- `split_once` finds the first separator after a separator-free prefix. -/
lemma splitOnceChar_first (c : Char) (x y : Str) (hx : ∀ d ∈ x, d ≠ c) :
    splitOnceChar c (x ++ c :: y) = some (x, y) := by
  induction x with
  | nil => simp [splitOnceChar]
  | cons d ds ih =>
    have hd : d ≠ c := hx d (List.mem_cons_self d ds)
    have hds := ih (fun e he => hx e (List.mem_cons_of_mem d he))
    simp only [List.cons_append, splitOnceChar, if_neg hd, List.append_eq, hds]
    rfl

/-- The digit string `"5"` evaluates to the rational 5. -/
lemma digitsVal_five : digitsVal ['5'] = 5 := by
  have hchar : ('5'.toNat - '0'.toNat : ℕ) = 5 := by decide
  simp only [digitsVal, List.foldl]
  rw [hchar]
  norm_num

/-- The weight string `"5"` parses to the rational 5. -/
lemma parsePortion_digit5 : parsePortion ['5'] = some 5 := by
  have hso : splitOnceChar '.' ['5'] = none := by decide
  simp only [parsePortion, hso]
  rw [if_pos (by decide)]
  rw [digitsVal_five]

end ParsingLemmas

/-- `mix_styles` returns its `Err` exactly when the spec has no `+` and is
not a voice name of the table. -/
lemma mix_error_iff (table : StyleTable) (name : Str) (n : Nat) :
    (∃ e, mix_styles table name n = some (Except.error e)) ↔
      ('+' ∉ name ∧ table name = none) := by
  by_cases hc : '+' ∈ name
  · simp only [mix_styles]
    constructor
    · rintro ⟨e, he⟩
      rw [if_neg (by simp [hc])] at he
      exfalso
      cases hb : blendLoop table n
          (parseComponents (splitOnPred (fun c => c = '+') name)) (fun _ => 0) with
      | none => simp [hb] at he
      | some b => simp [hb] at he
    · rintro ⟨h1, _⟩; exact absurd hc h1
  · simp only [mix_styles]
    rw [if_pos (by simp [hc])]
    cases ht : table name with
    | none => simp [hc]
    | some tbl =>
      constructor
      · rintro ⟨e, he⟩
        exfalso
        simp only [] at he
        cases hg : tbl.get? n with
        | none => simp [hg] at he
        | some row => simp [hg] at he
      · rintro ⟨_, h2⟩
        exact Option.noConfusion h2

/-- In the blend `"a.5+zzz.5"`, an unresolved component name contributes
nothing: the result is half of `a`'s row alone. -/
lemma mix_blend_skips_unresolved (table : StyleTable) (tbl : VoiceTensor)
    (n : Nat) (hn : n < tbl.length) (ha : table (str "a") = some tbl)
    (hz : table (str "zzz") = none) :
    ∃ b, mix_styles table (str "a.5+zzz.5") n = some (Except.ok [b]) ∧
      ∀ j, b j = (1 / 2) * tbl.get ⟨n, hn⟩ j := by
  have hsplit : splitOnPred (fun c => c = '+') (str "a.5+zzz.5")
      = [str "a.5", str "zzz.5"] := by decide
  have hso1 : splitOnceChar '.' (str "a.5") = some (str "a", str "5") := by decide
  have hso2 : splitOnceChar '.' (str "zzz.5") = some (str "zzz", str "5") := by decide
  have hlist : str "5" = ['5'] := by decide
  have hpp : parsePortion (str "5") = some 5 := by rw [hlist]; exact parsePortion_digit5
  have hcomp : parseComponents (splitOnPred (fun c => c = '+') (str "a.5+zzz.5"))
      = [(str "a", 5 * (1 / 10)), (str "zzz", 5 * (1 / 10))] := by
    rw [hsplit]
    simp only [parseComponents, hso1, hso2, hpp]
  simp only [mix_styles]
  rw [if_neg (by decide)]
  rw [hcomp]
  simp only [blendLoop, ha, hz, List.get?_eq_get hn]
  refine ⟨_, rfl, ?_⟩
  intro j
  show (fun _ => (0 : ℚ)) j + tbl.get ⟨n, hn⟩ j * (5 * (1 / 10))
      = (1 / 2) * tbl.get ⟨n, hn⟩ j
  ring

/-- C7: `mix_styles` errors exactly when the spec has no `+` and names no
voice of the table; in a blend, components whose name does not resolve are
silently skipped and contribute nothing, so `mix("a.5+zzz.5", n)` is
`0.5 * table[a][n]` when only `a` resolves. -/
theorem c7_mix_error_policy :
    (∀ (table : StyleTable) (name : Str) (n : Nat),
        (∃ e, mix_styles table name n = some (Except.error e)) ↔
          ('+' ∉ name ∧ table name = none)) ∧
    (∀ (table : StyleTable) (tbl : VoiceTensor) (n : Nat)
        (hn : n < tbl.length), table (str "a") = some tbl →
        table (str "zzz") = none →
        ∃ b, mix_styles table (str "a.5+zzz.5") n = some (Except.ok [b]) ∧
          ∀ j, b j = (1 / 2) * tbl.get ⟨n, hn⟩ j) :=
  ⟨mix_error_iff, mix_blend_skips_unresolved⟩

/-- Witness for C7 at the concrete store `table0`: the unknown single voice
`zzz` errors, and `a.5+zzz.5` blends to half of `a`'s row with `zzz`
silently skipped. -/
theorem c7_mix_error_policy_witness :
    (∃ e, mix_styles table0 (str "zzz") 0 = some (Except.error e)) ∧
    (∃ b, mix_styles table0 (str "a.5+zzz.5") 0 = some (Except.ok [b]) ∧
      ∀ j, b j = (1 / 2) * tensorA.get
        ⟨0, by simp only [tensorA, List.length_replicate]; omega⟩ j) :=
  ⟨(c7_mix_error_policy.1 table0 (str "zzz") 0).mpr ⟨by decide, rfl⟩,
   c7_mix_error_policy.2 table0 tensorA 0
     (by simp only [tensorA, List.length_replicate]; omega) rfl rfl⟩

/-- C8: for voices `a` and `b` both present in the table, the blend spec
`"a.5+b.5"` resolves, each component weighing in at its digit over ten, and
the result is the element-wise sum `0.5*table[a][n] + 0.5*table[b][n]`
accumulated into a zero-initialized 256-length vector (`f32` idealized as
exact rationals). Voice names are separator-free as in the real store. -/
theorem c8_blend_linearity (table : StyleTable) (a b : Str)
    (ta tb : VoiceTensor) (n : Nat) (hna : n < ta.length) (hnb : n < tb.length)
    (haChars : ∀ c ∈ a, c ≠ '+' ∧ c ≠ '.') (hbChars : ∀ c ∈ b, c ≠ '+' ∧ c ≠ '.')
    (hta : table a = some ta) (htb : table b = some tb) :
    ∃ blend, mix_styles table (a ++ str ".5+" ++ b ++ str ".5") n
        = some (Except.ok [blend]) ∧
      ∀ j, blend j = (1 / 2) * ta.get ⟨n, hna⟩ j + (1 / 2) * tb.get ⟨n, hnb⟩ j := by
  have h1 : str ".5+" = ['.', '5', '+'] := by decide
  have h2 : str ".5" = ['.', '5'] := by decide
  have hstr : a ++ str ".5+" ++ b ++ str ".5"
      = (a ++ ['.', '5']) ++ '+' :: (b ++ ['.', '5']) := by
    rw [h1, h2]
    simp [List.append_assoc]
  have hpa : ∀ c ∈ a ++ ['.', '5'], c ≠ '+' := by
    intro c hc
    rcases List.mem_append.mp hc with h | h
    · exact (haChars c h).1
    · simp only [List.mem_cons, List.mem_singleton] at h
      rcases h with h | h | h
      · rw [h]; decide
      · rw [h]; decide
      · exact absurd h (List.not_mem_nil c)
  have hpb : ∀ c ∈ b ++ ['.', '5'], c ≠ '+' := by
    intro c hc
    rcases List.mem_append.mp hc with h | h
    · exact (hbChars c h).1
    · simp only [List.mem_cons, List.mem_singleton] at h
      rcases h with h | h | h
      · rw [h]; decide
      · rw [h]; decide
      · exact absurd h (List.not_mem_nil c)
  have hsplit2 : splitOnPred (fun c => c = '+') (b ++ ['.', '5'])
      = [b ++ ['.', '5']] :=
    splitOnPred_no_match _ _ (fun c hc => by simp [hpb c hc])
  have hsplitRest : splitOnPred (fun c => c = '+') ('+' :: (b ++ ['.', '5']))
      = [] :: [b ++ ['.', '5']] := by
    simp only [splitOnPred, hsplit2]
    norm_num
  have hsplitAll : splitOnPred (fun c => c = '+')
      ((a ++ ['.', '5']) ++ '+' :: (b ++ ['.', '5']))
      = ((a ++ ['.', '5']) ++ []) :: [b ++ ['.', '5']] :=
    splitOnPred_append_of_no_match _ _ (fun c hc => by simp [hpa c hc]) _ _ _
      hsplitRest
  have hso_a : splitOnceChar '.' (a ++ ['.', '5']) = some (a, ['5']) :=
    splitOnceChar_first '.' a ['5'] (fun d hd => (haChars d hd).2)
  have hso_b : splitOnceChar '.' (b ++ ['.', '5']) = some (b, ['5']) :=
    splitOnceChar_first '.' b ['5'] (fun d hd => (hbChars d hd).2)
  have hcomp : parseComponents [a ++ ['.', '5'], b ++ ['.', '5']]
      = [(a, 5 * (1 / 10)), (b, 5 * (1 / 10))] := by
    simp only [parseComponents, hso_a, hso_b, parsePortion_digit5]
  simp only [mix_styles]
  rw [if_neg (by simp [h1])]
  rw [hstr, hsplitAll]
  simp only [List.append_nil]
  rw [hcomp]
  simp only [blendLoop, hta, htb, List.get?_eq_get hna, List.get?_eq_get hnb]
  refine ⟨_, rfl, ?_⟩
  intro j
  show ((fun _ => (0 : ℚ)) j + ta.get ⟨n, hna⟩ j * (5 * (1 / 10)))
        + tb.get ⟨n, hnb⟩ j * (5 * (1 / 10))
      = (1 / 2) * ta.get ⟨n, hna⟩ j + (1 / 2) * tb.get ⟨n, hnb⟩ j
  ring

/-- Witness for C8 at the concrete store: blending `a` (rows of 1) and `b`
(rows of 2) with weights .5/.5 at token count 0. -/
theorem c8_blend_linearity_witness :
    ∃ blend, mix_styles table0 (str "a" ++ str ".5+" ++ str "b" ++ str ".5") 0
        = some (Except.ok [blend]) ∧
      ∀ j, blend j = (1 / 2) * tensorA.get
            ⟨0, by simp only [tensorA, List.length_replicate]; omega⟩ j
          + (1 / 2) * tensorB.get
            ⟨0, by simp only [tensorB, List.length_replicate]; omega⟩ j :=
  c8_blend_linearity table0 (str "a") (str "b") tensorA tensorB 0
    (by simp only [tensorA, List.length_replicate]; omega)
    (by simp only [tensorB, List.length_replicate]; omega)
    (by decide) (by decide) rfl rfl

/-- Inserting 30 at the front `k` times prepends `k` copies of 30. -/
lemma prependSilence_eq (k : Nat) :
    ∀ t : List Int, prependSilence k t = List.replicate k 30 ++ t := by
  induction k with
  | zero => intro t; rfl
  | succ k ih =>
    intro t
    show prependSilence k (30 :: t) = List.replicate (k + 1) 30 ++ t
    rw [ih, List.replicate_succ', List.append_assoc]
    rfl

/-- C3: once the phonemizer succeeds on a chunk, the style vector is resolved
at the pre-padding token count `k + |tokenize(phonemes)|`, and the token
sequence handed to inference is exactly
`[0] ++ (k copies of 30) ++ tokenize(phonemes) ++ [0]` (in a batch of one). -/
theorem c3_inference_input (ph : Phonemize) (vocab : Vocab)
    (table : StyleTable) (ifr : Infer) (lan sn : Str) (speed : ℚ) (k : Nat)
    (chunk p : Str) (hp : ph lan chunk = Except.ok p) :
    processChunk ph vocab table ifr lan sn speed k chunk =
      match mix_styles table sn (k + (tokenize vocab p).length) with
      | none => ChunkOutcome.stylePanic
      | some (Except.error e) => ChunkOutcome.styleError e
      | some (Except.ok styles) =>
        match ifr [[0] ++ (List.replicate k 30 ++ tokenize vocab p) ++ [0]]
            styles speed with
        | Except.ok a => ChunkOutcome.audio a
        | Except.error e => ChunkOutcome.inferError e := by
  simp only [processChunk, hp]
  rw [prependSilence_eq]
  rw [List.length_append, List.length_replicate]
  rfl

/-- Witness for C3 on a concrete chunk with two leading silence tokens. -/
theorem c3_inference_input_witness :
    processChunk ph0 vocab0 table0 infer0 (str "en") (str "a") 1 2 (str "Hi.")
      = match mix_styles table0 (str "a")
            (2 + (tokenize vocab0 (str "Hi.")).length) with
        | none => ChunkOutcome.stylePanic
        | some (Except.error e) => ChunkOutcome.styleError e
        | some (Except.ok styles) =>
          match infer0 [[0] ++ (List.replicate 2 30 ++ tokenize vocab0 (str "Hi.")) ++ [0]]
              styles 1 with
          | Except.ok a => ChunkOutcome.audio a
          | Except.error e => ChunkOutcome.inferError e :=
  c3_inference_input ph0 vocab0 table0 infer0 (str "en") (str "a") 1 2
    (str "Hi.") (str "Hi.") rfl

/-- C4 counterexample: on a failing inference the returned error is
`Chunk processing failed: boom`, which does not contain the chunk's text
`Hi.` — the text goes only to the stderr log. -/
theorem c4_counterexample :
    tts_raw_audio ph0 vocab0 table0 inferBad (str "Hi") (str "en") (str "a")
        1 none
      = some (chunkFailLog (str "boom") (str "Hi."),
          Except.error (chunkFailMsg (str "boom"))) ∧
    containsSlice (str "Hi.") (chunkFailMsg (str "boom")) = false :=
  ⟨rfl, by decide⟩

/-- C4 amended: if inference fails on a chunk, batch synthesis returns an
error immediately — independently of the remaining chunks (no partial audio,
no retry); the failing chunk's text is written to the stderr diagnostics,
while the returned error's message is built from the inference error only. -/
theorem c4_inference_failure_aborts (ph : Phonemize) (vocab : Vocab)
    (table : StyleTable) (ifr : Infer) (lan sn : Str) (speed : ℚ) (k : Nat)
    (chunk : Str) (rest : List Str) (acc : List ℚ) (log : List Str) (e : Str)
    (hfail : processChunk ph vocab table ifr lan sn speed k chunk
      = ChunkOutcome.inferError e) :
    synthChunksB ph vocab table ifr lan sn speed k (chunk :: rest) acc log
      = some (log ++ chunkFailLog e chunk, Except.error (chunkFailMsg e)) ∧
    chunkFailMsg e = str "Chunk processing failed: " ++ e ∧
    str "Chunk text was: " ++ chunk ∈ chunkFailLog e chunk := by
  refine ⟨?_, rfl, ?_⟩
  · simp only [synthChunksB, hfail]
  · simp [chunkFailLog]

/-- Witness for the amended C4: the failing chunk aborts synthesis with a
second, never-processed chunk still pending. -/
theorem c4_inference_failure_aborts_witness :
    processChunk ph0 vocab0 table0 inferBad (str "en") (str "a") 1 0 (str "Hi.")
        = ChunkOutcome.inferError (str "boom") ∧
    synthChunksB ph0 vocab0 table0 inferBad (str "en") (str "a") 1 0
        [str "Hi.", str "More text."] [] []
      = some ([] ++ chunkFailLog (str "boom") (str "Hi."),
          Except.error (chunkFailMsg (str "boom"))) :=
  ⟨rfl,
   (c4_inference_failure_aborts ph0 vocab0 table0 inferBad (str "en") (str "a")
      1 0 (str "Hi.") [str "More text."] [] [] (str "boom") rfl).1⟩

/-- Replacing phonemizer errors by empty phonemes does not change the
measurement. -/
lemma measureTokens_fallback (ph : Phonemize) (vocab : Vocab) :
    ∀ s, measureTokens (fun lang t => Except.ok (phOrEmpty ph lang t)) vocab s
      = measureTokens ph vocab s := fun _ => rfl

/-- The word loop depends on the phonemizer only through the measurement. -/
lemma wordLoop_congr (ph ph2 : Phonemize) (vocab : Vocab) (mt : Nat)
    (h : ∀ s, measureTokens ph vocab s = measureTokens ph2 vocab s) :
    ∀ ws chunks wc,
      wordLoop ph vocab mt ws chunks wc = wordLoop ph2 vocab mt ws chunks wc := by
  intro ws
  induction ws with
  | nil => intro chunks wc; rfl
  | cons w ws ih =>
    intro chunks wc
    simp only [wordLoop, h, ih]

/-- The sentence loop depends on the phonemizer only through the
measurement. -/
lemma sentenceLoop_congr (ph ph2 : Phonemize) (vocab : Vocab) (mt : Nat)
    (h : ∀ s, measureTokens ph vocab s = measureTokens ph2 vocab s) :
    ∀ ss chunks current,
      sentenceLoop ph vocab mt ss chunks current
        = sentenceLoop ph2 vocab mt ss chunks current := by
  intro ss
  induction ss with
  | nil => intro chunks current; rfl
  | cons s ss ih =>
    intro chunks current
    simp only [sentenceLoop, h, ih, wordLoop_congr ph ph2 vocab mt h]

/-- The chunker depends on the phonemizer only through the measurement. -/
lemma split_congr (ph ph2 : Phonemize) (vocab : Vocab)
    (h : ∀ s, measureTokens ph vocab s = measureTokens ph2 vocab s)
    (text : Str) (mt : Nat) :
    split_text_into_chunks ph vocab text mt
      = split_text_into_chunks ph2 vocab text mt := by
  simp only [split_text_into_chunks, sentenceLoop_congr ph ph2 vocab mt h]

/-- C6 counterexample: with a phonemizer that always fails, the chunker still
produces the chunk (empty-phoneme fallback), but per-chunk synthesis does not
continue with empty phonemes — it propagates the phonemizer error and the
request fails. -/
theorem c6_counterexample :
    split_text_into_chunks phBad vocab0 (str "Hi") 500 = [str "Hi."] ∧
    tts_raw_audio phBad vocab0 table0 infer0 (str "Hi") (str "en") (str "a")
        1 none
      = some ([], Except.error (str "espeak failure")) :=
  ⟨by decide, rfl⟩

/-- C6 amended: during chunk measurement a phonemizer error is treated as an
empty phoneme string (the chunker behaves as if the phonemizer had returned
`""`), but during per-chunk synthesis the error is propagated and the request
fails rather than continuing. -/
theorem c6_phonemizer_error_policy :
    (∀ (ph : Phonemize) (vocab : Vocab) (text : Str) (mt : Nat),
        split_text_into_chunks ph vocab text mt
          = split_text_into_chunks
              (fun lang s => Except.ok (phOrEmpty ph lang s)) vocab text mt) ∧
    (∀ (ph : Phonemize) (vocab : Vocab) (table : StyleTable) (ifr : Infer)
        (lan sn : Str) (speed : ℚ) (k : Nat) (chunk : Str) (rest : List Str)
        (acc : List ℚ) (log : List Str) (e : Str),
        ph lan chunk = Except.error e →
        synthChunksB ph vocab table ifr lan sn speed k (chunk :: rest) acc log
          = some (log, Except.error e)) := by
  constructor
  · intro ph vocab text mt
    exact (split_congr (fun lang s => Except.ok (phOrEmpty ph lang s)) ph vocab
      (measureTokens_fallback ph vocab) text mt).symm
  · intro ph vocab table ifr lan sn speed k chunk rest acc log e herr
    simp only [synthChunksB, processChunk, herr]

/-- Witness for the amended C6 with the always-failing phonemizer. -/
theorem c6_phonemizer_error_policy_witness :
    split_text_into_chunks phBad vocab0 (str "Hi") 500
        = split_text_into_chunks
            (fun lang s => Except.ok (phOrEmpty phBad lang s)) vocab0
            (str "Hi") 500 ∧
    synthChunksB phBad vocab0 table0 infer0 (str "en") (str "a") 1 0
        [str "Hi."] [] []
      = some ([], Except.error (str "espeak failure")) :=
  ⟨c6_phonemizer_error_policy.1 phBad vocab0 (str "Hi") 500,
   c6_phonemizer_error_policy.2 phBad vocab0 table0 infer0 (str "en")
     (str "a") 1 0 (str "Hi.") [] [] [] (str "espeak failure") rfl⟩

/-- Batch and streaming synthesis share the per-chunk pipeline; with a
collecting callback the streaming loop reproduces the batch loop: same
panics, same errors (same diagnostics), and on success one callback
invocation per chunk, in order, whose pieces concatenate to the batch
audio. -/
lemma synthS_of_B (ph : Phonemize) (vocab : Vocab) (table : StyleTable)
    (ifr : Infer) (lan sn : Str) (speed : ℚ) (k : Nat) :
    ∀ (chunks : List Str) (acc : List ℚ) (s : List (List ℚ)) (log : List Str),
      (synthChunksB ph vocab table ifr lan sn speed k chunks acc log = none →
        synthChunksS ph vocab table ifr lan sn speed k
          (fun st a => Except.ok (st ++ [a])) chunks s log = none) ∧
      (∀ l e, synthChunksB ph vocab table ifr lan sn speed k chunks acc log
          = some (l, Except.error e) →
        synthChunksS ph vocab table ifr lan sn speed k
          (fun st a => Except.ok (st ++ [a])) chunks s log
          = some (l, Except.error e)) ∧
      (∀ l audio, synthChunksB ph vocab table ifr lan sn speed k chunks acc log
          = some (l, Except.ok audio) →
        ∃ parts, audio = acc ++ parts.flatten ∧ parts.length = chunks.length ∧
          synthChunksS ph vocab table ifr lan sn speed k
            (fun st a => Except.ok (st ++ [a])) chunks s log
            = some (l, Except.ok (s ++ parts))) := by
  intro chunks
  induction chunks with
  | nil =>
    intro acc s log
    refine ⟨?_, ?_, ?_⟩
    · intro h; exact Option.noConfusion h
    · intro l e h
      injection h with h1
      injection h1 with hl hr
      exact Except.noConfusion hr
    · intro l audio h
      injection h with h1
      injection h1 with hl hr
      injection hr with ha
      refine ⟨[], ?_, rfl, ?_⟩
      · rw [← ha]; simp
      · rw [← hl]; simp [synthChunksS]
  | cons chunk rest ih =>
    intro acc s log
    cases hpc : processChunk ph vocab table ifr lan sn speed k chunk with
    | phonemeError e0 =>
      refine ⟨?_, ?_, ?_⟩
      · intro h
        simp only [synthChunksB, hpc] at h
        exact Option.noConfusion h
      · intro l e h
        simp only [synthChunksB, hpc, Option.some_inj, Prod.mk.injEq,
          Except.error.injEq] at h
        obtain ⟨hl, he⟩ := h
        simp only [synthChunksS, hpc, hl, he]
      · intro l audio h
        simp only [synthChunksB, hpc, Option.some_inj, Prod.mk.injEq] at h
        exact Except.noConfusion h.2
    | styleError e0 =>
      refine ⟨?_, ?_, ?_⟩
      · intro h
        simp only [synthChunksB, hpc] at h
        exact Option.noConfusion h
      · intro l e h
        simp only [synthChunksB, hpc, Option.some_inj, Prod.mk.injEq,
          Except.error.injEq] at h
        obtain ⟨hl, he⟩ := h
        simp only [synthChunksS, hpc, hl, he]
      · intro l audio h
        simp only [synthChunksB, hpc, Option.some_inj, Prod.mk.injEq] at h
        exact Except.noConfusion h.2
    | stylePanic =>
      refine ⟨?_, ?_, ?_⟩
      · intro _; simp only [synthChunksS, hpc]
      · intro l e h
        simp only [synthChunksB, hpc] at h
        exact Option.noConfusion h
      · intro l audio h
        simp only [synthChunksB, hpc] at h
        exact Option.noConfusion h
    | inferError e0 =>
      refine ⟨?_, ?_, ?_⟩
      · intro h
        simp only [synthChunksB, hpc] at h
        exact Option.noConfusion h
      · intro l e h
        simp only [synthChunksB, hpc, Option.some_inj, Prod.mk.injEq,
          Except.error.injEq] at h
        obtain ⟨hl, he⟩ := h
        simp only [synthChunksS, hpc, hl, he]
      · intro l audio h
        simp only [synthChunksB, hpc, Option.some_inj, Prod.mk.injEq] at h
        exact Except.noConfusion h.2
    | audio a =>
      refine ⟨?_, ?_, ?_⟩
      · intro h
        simp only [synthChunksB, hpc] at h
        simp only [synthChunksS, hpc]
        exact (ih (acc ++ a) (s ++ [a]) log).1 h
      · intro l e h
        simp only [synthChunksB, hpc] at h
        simp only [synthChunksS, hpc]
        exact (ih (acc ++ a) (s ++ [a]) log).2.1 l e h
      · intro l audio h
        simp only [synthChunksB, hpc] at h
        obtain ⟨parts, hpj, hlen, hS⟩ :=
          (ih (acc ++ a) (s ++ [a]) log).2.2 l audio h
        refine ⟨a :: parts, ?_, ?_, ?_⟩
        · rw [hpj]; simp [List.append_assoc]
        · simp [hlen]
        · simp only [synthChunksS, hpc]
          exact hS.trans (by simp)

/-- C9: whenever batch synthesis succeeds, streaming synthesis with a
collecting callback succeeds with the same diagnostics, fires the callback
exactly once per chunk in chunk order, and the concatenation of the delivered
PCM chunks equals the batch audio buffer. -/
theorem c9_streaming_refines_batch (ph : Phonemize) (vocab : Vocab)
    (table : StyleTable) (ifr : Infer) (txt lan sn : Str) (speed : ℚ)
    (initialSilence : Option Nat) (log : List Str) (audio : List ℚ)
    (h : tts_raw_audio ph vocab table ifr txt lan sn speed initialSilence
      = some (log, Except.ok audio)) :
    ∃ parts : List (List ℚ),
      tts_raw_audio_streaming ph vocab table ifr txt lan sn speed
          initialSilence (fun st a => Except.ok (st ++ [a])) []
        = some (log, Except.ok parts) ∧
      parts.flatten = audio ∧
      parts.length = (split_text_into_chunks ph vocab txt 500).length := by
  obtain ⟨parts, hpj, hlen, hS⟩ :=
    ((synthS_of_B ph vocab table ifr lan sn speed (initialSilence.getD 0)
      (split_text_into_chunks ph vocab txt 500) [] [] []).2.2 log audio h)
  refine ⟨parts, ?_, ?_, hlen⟩
  · exact hS.trans (by simp)
  · rw [hpj]; simp

/-- Witness for C9 on a concrete one-chunk input. -/
theorem c9_streaming_refines_batch_witness :
    ∃ parts : List (List ℚ),
      tts_raw_audio_streaming ph0 vocab0 table0 infer0 (str "Hi") (str "en")
          (str "a") 1 none (fun st a => Except.ok (st ++ [a])) []
        = some ([], Except.ok parts) ∧
      parts.flatten = [1] ∧
      parts.length = (split_text_into_chunks ph0 vocab0 (str "Hi") 500).length :=
  c9_streaming_refines_batch ph0 vocab0 table0 infer0 (str "Hi") (str "en")
    (str "a") 1 none [] [1] rfl

/-- Every piece produced by `splitOnPred` is free of matching characters. -/
lemma splitOnPred_pieces (p : Char → Bool) :
    ∀ (l piece : Str), piece ∈ splitOnPred p l → ∀ c ∈ piece, p c = false := by
  intro l
  induction l with
  | nil =>
    intro piece hp c hc
    simp only [splitOnPred, List.mem_singleton] at hp
    subst hp
    exact absurd hc (List.not_mem_nil c)
  | cons d ds ih =>
    intro piece hp c hc
    by_cases hd : p d
    · simp only [splitOnPred, hd, if_true] at hp
      rcases List.mem_cons.mp hp with h | h
      · subst h; exact absurd hc (List.not_mem_nil c)
      · exact ih piece h c hc
    · have hd' : p d = false := by simpa using hd
      simp only [splitOnPred, hd', Bool.false_eq_true, if_false] at hp
      cases hrec : splitOnPred p ds with
      | nil =>
        simp only [hrec] at hp
        simp only [List.mem_singleton] at hp
        subst hp
        rcases List.mem_cons.mp hc with h2 | h2
        · subst h2; exact hd'
        · exact absurd h2 (List.not_mem_nil c)
      | cons x xs =>
        simp only [hrec] at hp
        rcases List.mem_cons.mp hp with h | h
        · subst h
          rcases List.mem_cons.mp hc with h2 | h2
          · subst h2; exact hd'
          · exact ih x (by rw [hrec]; exact List.mem_cons_self x xs) c h2
        · exact ih piece (by rw [hrec]; exact List.mem_cons_of_mem x h) c hc

/-- Words produced by `splitWhitespace` are non-empty and whitespace-free. -/
lemma splitWhitespace_words (s : Str) :
    ∀ w ∈ splitWhitespace s, w ≠ [] ∧ ∀ c ∈ w, c.isWhitespace = false := by
  intro w hw
  obtain ⟨hmem, hne⟩ := List.mem_filter.mp hw
  refine ⟨?_, splitOnPred_pieces Char.isWhitespace s w hmem⟩
  simpa using hne

/-- The chunk-budget predicate maintained by the chunker: a chunk either
measures within budget or is a single whitespace-free word. -/
def chunkOk (ph : Phonemize) (vocab : Vocab) (mt : Nat) (chunk : Str) : Prop :=
  measureTokens ph vocab chunk ≤ mt ∨
    (chunk ≠ [] ∧ ∀ c ∈ chunk, c.isWhitespace = false)

/-- The word loop preserves the budget predicate on emitted chunks and on its
running word buffer. -/
lemma wordLoop_inv (ph : Phonemize) (vocab : Vocab) (mt : Nat) :
    ∀ (ws chunks : List Str) (wc : Str),
      (∀ ch ∈ chunks, chunkOk ph vocab mt ch) →
      (wc = [] ∨ chunkOk ph vocab mt wc) →
      (∀ w ∈ ws, w ≠ [] ∧ ∀ c ∈ w, c.isWhitespace = false) →
      (∀ ch ∈ (wordLoop ph vocab mt ws chunks wc).1, chunkOk ph vocab mt ch) ∧
        ((wordLoop ph vocab mt ws chunks wc).2 = [] ∨
          chunkOk ph vocab mt (wordLoop ph vocab mt ws chunks wc).2) := by
  intro ws
  induction ws with
  | nil =>
    intro chunks wc hch hwc _
    exact ⟨hch, hwc⟩
  | cons w ws ih =>
    intro chunks wc hch hwc hws
    have hw := hws w (List.mem_cons_self w ws)
    have hws2 : ∀ x ∈ ws, x ≠ [] ∧ ∀ c ∈ x, c.isWhitespace = false :=
      fun x hx => hws x (List.mem_cons_of_mem w hx)
    simp only [wordLoop]
    by_cases hgt :
        measureTokens ph vocab (if wc.isEmpty then w else wc ++ ' ' :: w) > mt
    · rw [if_pos hgt]
      apply ih _ _ ?_ (Or.inr (Or.inr hw)) hws2
      intro ch hc
      by_cases hwcE : wc.isEmpty
      · rw [if_pos hwcE] at hc
        exact hch ch hc
      · rw [if_neg hwcE] at hc
        rcases List.mem_append.mp hc with h | h
        · exact hch ch h
        · have hceq : ch = wc := by simpa using h
          subst hceq
          rcases hwc with h0 | h0
          · exact absurd (by rw [h0]; rfl) hwcE
          · exact h0
    · rw [if_neg hgt]
      exact ih _ _ hch (Or.inr (Or.inl (by omega))) hws2

/-- The sentence loop preserves the budget predicate on emitted chunks and
keeps the accumulator within budget. -/
lemma sentenceLoop_inv (ph : Phonemize) (vocab : Vocab) (mt : Nat) :
    ∀ (ss chunks : List Str) (current : Str),
      (∀ ch ∈ chunks, chunkOk ph vocab mt ch) →
      (current = [] ∨ measureTokens ph vocab current ≤ mt) →
      (∀ ch ∈ (sentenceLoop ph vocab mt ss chunks current).1,
          chunkOk ph vocab mt ch) ∧
        ((sentenceLoop ph vocab mt ss chunks current).2 = [] ∨
          measureTokens ph vocab (sentenceLoop ph vocab mt ss chunks current).2
            ≤ mt) := by
  intro ss
  induction ss with
  | nil =>
    intro chunks current hch hcur
    exact ⟨hch, hcur⟩
  | cons s ss ih =>
    intro chunks current hch hcur
    simp only [sentenceLoop]
    by_cases hgt : measureTokens ph vocab (trimChars s ++ ['.']) > mt
    · rw [if_pos hgt]
      have hwl := wordLoop_inv ph vocab mt
        (splitWhitespace (trimChars s ++ ['.'])) chunks [] hch (Or.inl rfl)
        (splitWhitespace_words (trimChars s ++ ['.']))
      apply ih _ _ ?_ hcur
      intro ch hc
      by_cases hwcE : (wordLoop ph vocab mt
          (splitWhitespace (trimChars s ++ ['.'])) chunks []).2.isEmpty
      · rw [if_pos hwcE] at hc
        exact hwl.1 ch hc
      · rw [if_neg hwcE] at hc
        rcases List.mem_append.mp hc with h | h
        · exact hwl.1 ch h
        · have hceq : ch = (wordLoop ph vocab mt
              (splitWhitespace (trimChars s ++ ['.'])) chunks []).2 := by
            simpa using h
          subst hceq
          rcases hwl.2 with h0 | h0
          · exact absurd (by rw [h0]; rfl) hwcE
          · exact h0
    · rw [if_neg hgt]
      by_cases hcurE : current.isEmpty
      · have : (!current.isEmpty) = false := by simp [hcurE]
        simp only [this, Bool.false_eq_true, if_false]
        exact ih _ _ hch (Or.inr (by omega))
      · have : (!current.isEmpty) = true := by simp [hcurE]
        simp only [this, eq_self_iff_true, if_true]
        by_cases hgt2 :
            measureTokens ph vocab (current ++ ' ' :: (trimChars s ++ ['.'])) > mt
        · rw [if_pos hgt2]
          apply ih _ _ ?_ (Or.inr (by omega))
          intro ch hc
          rcases List.mem_append.mp hc with h | h
          · exact hch ch h
          · have hceq : ch = current := by simpa using h
            subst hceq
            rcases hcur with h0 | h0
            · exact absurd (by rw [h0]; rfl) hcurE
            · exact Or.inl h0
        · rw [if_neg hgt2]
          exact ih _ _ hch (Or.inr (by omega))

/-- C1 counterexample: with identity phonemization, input `abc` and budget 4
produce the single chunk `abc.`, whose pre-padding token count is exactly the
budget 4, so its post-padding count (with the two sentinel zeros) is 6 > 4,
while the chunk is not an irreducible word over budget (its own phoneme
length does not exceed 4) — refuting the claimed post-padding bound. -/
theorem c1_counterexample :
    split_text_into_chunks ph0 vocab0 (str "abc") 4 = [str "abc."] ∧
    measureTokens ph0 vocab0 (str "abc.") = 4 ∧
    (0 :: (prependSilence 0
        (tokenize vocab0 (phOrEmpty ph0 (str "en") (str "abc."))) ++ [0])).length
      = 6 ∧
    ¬(4 < measureTokens ph0 vocab0 (str "abc.")) := by decide

/-- C1 amended: every chunk produced by the chunker has pre-padding
phoneme-token count at most `max_tokens` — hence post-padding count at most
`max_tokens + 2` — except an irreducible single word (non-empty and free of
whitespace) whose own phoneme length alone exceeds the budget. -/
theorem c1_chunk_budget (ph : Phonemize) (vocab : Vocab) (text : Str)
    (mt : Nat) (chunk : Str)
    (hmem : chunk ∈ split_text_into_chunks ph vocab text mt) :
    measureTokens ph vocab chunk ≤ mt ∨
      (chunk ≠ [] ∧ (∀ c ∈ chunk, c.isWhitespace = false) ∧
        mt < measureTokens ph vocab chunk) := by
  set sents := (splitOnPred
      (fun c => c = '.' || c = '?' || c = '!' || c = ';') text).filter
    (fun s => !(trimChars s).isEmpty) with hsents
  have hloop := sentenceLoop_inv ph vocab mt sents [] []
    (fun ch hc => absurd hc (List.not_mem_nil ch)) (Or.inl rfl)
  simp only [split_text_into_chunks] at hmem
  rw [← hsents] at hmem
  have hP : chunkOk ph vocab mt chunk := by
    by_cases hre : (sentenceLoop ph vocab mt sents [] []).2.isEmpty
    · rw [if_pos hre] at hmem
      exact hloop.1 chunk hmem
    · rw [if_neg hre] at hmem
      rcases List.mem_append.mp hmem with h | h
      · exact hloop.1 chunk h
      · have hceq : chunk = (sentenceLoop ph vocab mt sents [] []).2 := by
          simpa using h
        subst hceq
        rcases hloop.2 with h0 | h0
        · exact absurd (by rw [h0]; rfl) hre
        · exact Or.inl h0
  by_cases hle : measureTokens ph vocab chunk ≤ mt
  · exact Or.inl hle
  · rcases hP with h | h
    · exact Or.inl h
    · exact Or.inr ⟨h.1, h.2, by omega⟩

/-- Witness for the amended C1 at the concrete counterexample input. -/
theorem c1_chunk_budget_witness :
    str "abc." ∈ split_text_into_chunks ph0 vocab0 (str "abc") 4 ∧
    (measureTokens ph0 vocab0 (str "abc.") ≤ 4 ∨
      (str "abc." ≠ [] ∧ (∀ c ∈ str "abc.", c.isWhitespace = false) ∧
        4 < measureTokens ph0 vocab0 (str "abc."))) :=
  ⟨by decide,
   c1_chunk_budget ph0 vocab0 (str "abc") 4 (str "abc.") (by decide)⟩

/-- C5 counterexample: with an identity phonemizer under which each
sentence's token count fits the budget (12 and 15, far below 500), the
chunker does not yield the two claimed chunks: the second sentence's `!` is
replaced by a period and the two sentences are merged into one chunk. -/
theorem c5_counterexample :
    measureTokens ph0 vocab0 (str "Hello world.") ≤ 500 ∧
    measureTokens ph0 vocab0 (str "This is a test!") ≤ 500 ∧
    split_text_into_chunks ph0 vocab0 (str "Hello world. This is a test!") 500
      ≠ [str "Hello world.", str "This is a test!"] := by decide

/-- C5 amended: whenever the two normalized sentences and their combination
measure within the budget 500 (true of the real phonemizer on this input),
the chunker on `"Hello world. This is a test!"` yields exactly one chunk,
`"Hello world. This is a test."`: the sentences are merged by the
accumulator and the `!` is normalized to a period. -/
theorem c5_two_sentences_merge (ph : Phonemize) (vocab : Vocab)
    (h1 : measureTokens ph vocab (str "Hello world.") ≤ 500)
    (h2 : measureTokens ph vocab (str "This is a test.") ≤ 500)
    (h12 : measureTokens ph vocab (str "Hello world. This is a test.") ≤ 500) :
    split_text_into_chunks ph vocab (str "Hello world. This is a test!") 500
      = [str "Hello world. This is a test."] := by
  have hsents : (splitOnPred (fun c => c = '.' || c = '?' || c = '!' || c = ';')
      (str "Hello world. This is a test!")).filter
      (fun s => !(trimChars s).isEmpty)
      = [str "Hello world", str " This is a test"] := by decide
  have ht1 : trimChars (str "Hello world") ++ ['.'] = str "Hello world." := by
    decide
  have ht2 : trimChars (str " This is a test") ++ ['.'] = str "This is a test." := by
    decide
  have htt : str "Hello world." ++ ' ' :: str "This is a test."
      = str "Hello world. This is a test." := by decide
  have step2 : sentenceLoop ph vocab 500 [str " This is a test"] []
        (str "Hello world.")
      = ([], str "Hello world. This is a test.") := by
    rw [sentenceLoop]
    rw [ht2]
    rw [if_neg (show ¬(measureTokens ph vocab (str "This is a test.") > 500)
      from by omega)]
    rw [htt]
    rw [if_neg
      (show ¬(measureTokens ph vocab (str "Hello world. This is a test.") > 500)
        from by omega)]
    rfl
  have step1 : sentenceLoop ph vocab 500
        [str "Hello world", str " This is a test"] [] []
      = ([], str "Hello world. This is a test.") := by
    rw [sentenceLoop]
    rw [ht1]
    rw [if_neg (show ¬(measureTokens ph vocab (str "Hello world.") > 500)
      from by omega)]
    rw [show (!(List.isEmpty ([] : Str))) = false from rfl]
    simp only [Bool.false_eq_true, if_false]
    exact step2
  simp only [split_text_into_chunks, hsents]
  rw [step1]
  decide

/-- Witness for the amended C5 with the identity phonemizer. -/
theorem c5_two_sentences_merge_witness :
    split_text_into_chunks ph0 vocab0 (str "Hello world. This is a test!") 500
      = [str "Hello world. This is a test."] :=
  c5_two_sentences_merge ph0 vocab0 (by decide) (by decide) (by decide)

end Kokoros
